import Mathlib

/-!
Verification of the azure-cache repository (an Azure Blob Storage backed
artifact cache for build pipelines).

The development shallowly embeds the TypeScript sources:

* `src/providers/AzureCacheProvider.ts` — blob-name sanitization
  (`sanitizeBlobName`), key resolution (`findMatchingBlob`), and the two
  provider operations `restoreCache` / `saveCache` with their catch-all
  error boundaries;
* `src/archive/ArchiveUtils.ts` — `createArchive`, `extractArchive`,
  `detectCompressionMethod`, `getArchiveExtension`.

Strings are modelled as `List Char`.  External effects (the `tar` tool,
blob download/upload, the filesystem) are modelled by an environment
record `Env` fixing the outcome of each external operation, and each
operation returns the list of observable external events it performed
together with an `Except`-typed result (exceptions = `Except.error`).
The SHA-256 hex digest used for over-long names is a function parameter
`sha256hex` (the code calls `crypto.createHash("sha256")...digest("hex")`).
-/

namespace AzureCache

/-- Strings of the TypeScript source, modelled as lists of characters. -/
abbrev Str := List Char

/-- `const CACHE_KEY_METADATA = "cachekey"`. -/
def CACHE_KEY_METADATA : Str := "cachekey".toList

/-- `const CREATED_AT_METADATA = "createdat"`. -/
def CREATED_AT_METADATA : Str := "createdat".toList

/-- `const MAX_BLOB_NAME_LENGTH = 1024`. -/
def MAX_BLOB_NAME_LENGTH : Nat := 1024

/-- The character class `\s` of a JavaScript regular expression:
ASCII whitespace, NBSP, the Unicode space separators, line and paragraph
separators, and the BOM. -/
def isJsWhitespace (c : Char) : Bool :=
  c = ' ' || c = '\t' || c = '\n' || c = '\x0b' || c = '\x0c' || c = '\r' ||
  c = '\u00a0' || c = '\u1680' || ('\u2000' ≤ c && c ≤ '\u200a') ||
  c = '\u2028' || c = '\u2029' || c = '\u202f' || c = '\u205f' || c = '\u3000' ||
  c = '\ufeff'

/-- `str.replace(/<c>/g, "_")` for a single character `c`. -/
def replaceAll (c : Char) (s : Str) : Str :=
  s.map fun x => if x = c then '_' else x

/-- `str.replace(/\s+/g, "_")`: every maximal run of whitespace becomes one
underscore. -/
def collapseWhitespace : Str → Str
  | [] => []
  | [c] => if isJsWhitespace c then ['_'] else [c]
  | c :: d :: rest =>
      if isJsWhitespace c then
        if isJsWhitespace d then collapseWhitespace (d :: rest)
        else '_' :: collapseWhitespace (d :: rest)
      else c :: collapseWhitespace (d :: rest)

/-- The character-replacement phase of `sanitizeBlobName`:
`key.replace(/\\/g,"_").replace(/\?/g,"_").replace(/#/g,"_").replace(/\s+/g,"_")`. -/
def sanitizeChars (key : Str) : Str :=
  collapseWhitespace (replaceAll '#' (replaceAll '?' (replaceAll '\\' key)))

/-- `AzureCacheProvider.sanitizeBlobName`.  `sha256hex` models
`crypto.createHash("sha256").update(key).digest("hex")` (a 64-character
hex string in reality); the code keeps its first 8 characters (`hash`),
truncates the sanitized string to
`maxBaseLength = MAX_BLOB_NAME_LENGTH - hash.length - 1`, and joins the
two with an underscore.  The source's `sanitized`, `hash` and
`maxBaseLength` locals are inlined here. -/
def sanitizeBlobName (sha256hex : Str → Str) (key : Str) : Str :=
  if (sanitizeChars key).length > MAX_BLOB_NAME_LENGTH then
    (sanitizeChars key).take
        (MAX_BLOB_NAME_LENGTH - ((sha256hex key).take 8).length - 1) ++
      '_' :: (sha256hex key).take 8
  else
    sanitizeChars key

/-- Hexadecimal digit (output alphabet of Node's `digest("hex")`). -/
def isHexChar (c : Char) : Bool :=
  c.isDigit || ('a' ≤ c && c ≤ 'f')

/-- A character clean for sanitization: not one of the replaced characters
and not whitespace. -/
def cleanChar (c : Char) : Bool :=
  !(c = '\\' || c = '?' || c = '#' || isJsWhitespace c)

theorem collapseWhitespace_of_clean (s : Str)
    (h : ∀ c ∈ s, isJsWhitespace c = false) : collapseWhitespace s = s := by
  induction s with
  | nil => rfl
  | cons c rest ih =>
      cases rest with
      | nil =>
          simp only [collapseWhitespace]
          rw [h c (by simp)]
          simp
      | cons d rest' =>
          simp only [collapseWhitespace]
          rw [h c (by simp)]
          simp only [Bool.false_eq_true, if_false]
          rw [ih (fun x hx => h x (List.mem_cons_of_mem c hx))]

theorem replaceAll_of_not_mem (c : Char) (s : Str)
    (h : ∀ x ∈ s, x ≠ c) : replaceAll c s = s := by
  induction s with
  | nil => rfl
  | cons x rest ih =>
      simp only [replaceAll, List.map_cons]
      rw [if_neg (h x (by simp))]
      have := ih (fun y hy => h y (by simp [hy]))
      simp only [replaceAll] at this
      rw [this]

theorem sanitizeChars_of_clean (s : Str) (h : ∀ c ∈ s, cleanChar c = true) :
    sanitizeChars s = s := by
  have h' : ∀ c ∈ s, c ≠ '\\' ∧ c ≠ '?' ∧ c ≠ '#' ∧ isJsWhitespace c = false := by
    intro c hc
    have := h c hc
    simp [cleanChar] at this
    tauto
  unfold sanitizeChars
  rw [replaceAll_of_not_mem _ _ (fun x hx => ((h' x hx).1)),
      replaceAll_of_not_mem _ _ (fun x hx => ((h' x hx).2.1)),
      replaceAll_of_not_mem _ _ (fun x hx => ((h' x hx).2.2.1)),
      collapseWhitespace_of_clean _ (fun x hx => ((h' x hx).2.2.2))]

/-- Claim C5: for every key whose sanitized form exceeds the maximum
blob-name length (1024), `sanitizeBlobName` returns the truncated
sanitized string followed by an underscore and an 8-hex-character digest
computed from the original unsanitized key (not the truncated string),
and the final result's length never exceeds the maximum (the last
conjunct holds for every key); sanitization is a total, deterministic
function of the key. -/
theorem sanitizeBlobName_long_key (sha256hex : Str → Str) (key : Str)
    (hlong : MAX_BLOB_NAME_LENGTH < (sanitizeChars key).length)
    (hlen : (sha256hex key).length = 64)
    (hhex : ∀ c ∈ sha256hex key, isHexChar c = true) :
    sanitizeBlobName sha256hex key =
      (sanitizeChars key).take (MAX_BLOB_NAME_LENGTH - 8 - 1) ++
        '_' :: (sha256hex key).take 8 ∧
    ((sha256hex key).take 8).length = 8 ∧
    (∀ c ∈ (sha256hex key).take 8, isHexChar c = true) ∧
    (∀ k : Str, (sanitizeBlobName sha256hex k).length ≤ MAX_BLOB_NAME_LENGTH) := by
  have htake : ((sha256hex key).take 8).length = 8 := by
    rw [List.length_take, hlen]
    decide
  refine ⟨?_, htake, ?_, ?_⟩
  · unfold sanitizeBlobName
    rw [if_pos hlong, htake]
  · intro c hc
    exact hhex c (List.mem_of_mem_take hc)
  · intro k
    unfold sanitizeBlobName MAX_BLOB_NAME_LENGTH
    by_cases hk : (sanitizeChars k).length > 1024
    · rw [if_pos hk]
      have h8 : ((sha256hex k).take 8).length ≤ 8 := List.length_take_le _ _
      simp only [List.length_append, List.length_cons, List.length_take]
      omega
    · rw [if_neg hk]
      omega

/-- A digest function standing in for SHA-256 hex in concrete runs. -/
def shaFix : Str → Str := fun _ => List.replicate 64 '0'

theorem sanitizeBlobName_long_key_witness :
    (MAX_BLOB_NAME_LENGTH < (sanitizeChars (List.replicate 1025 'x')).length ∧
     (shaFix (List.replicate 1025 'x')).length = 64 ∧
     (∀ c ∈ shaFix (List.replicate 1025 'x'), isHexChar c = true)) ∧
    (sanitizeBlobName shaFix (List.replicate 1025 'x') =
      (sanitizeChars (List.replicate 1025 'x')).take (MAX_BLOB_NAME_LENGTH - 8 - 1) ++
        '_' :: (shaFix (List.replicate 1025 'x')).take 8 ∧
    ((shaFix (List.replicate 1025 'x')).take 8).length = 8 ∧
    (∀ c ∈ (shaFix (List.replicate 1025 'x')).take 8, isHexChar c = true) ∧
    (∀ k : Str, (sanitizeBlobName shaFix k).length ≤ MAX_BLOB_NAME_LENGTH)) := by
  have hclean : sanitizeChars (List.replicate 1025 'x') = List.replicate 1025 'x' := by
    apply sanitizeChars_of_clean
    intro c hc
    rw [List.eq_of_mem_replicate hc]
    decide
  have h1 : MAX_BLOB_NAME_LENGTH < (sanitizeChars (List.replicate 1025 'x')).length := by
    rw [hclean, List.length_replicate]
    decide
  have h2 : (shaFix (List.replicate 1025 'x')).length = 64 := by
    simp [shaFix]
  have h3 : ∀ c ∈ shaFix (List.replicate 1025 'x'), isHexChar c = true := by
    intro c hc
    rw [List.eq_of_mem_replicate hc]
    decide
  exact ⟨⟨h1, h2, h3⟩, sanitizeBlobName_long_key shaFix _ h1 h2 h3⟩

/-- Backend-reported blob properties: `properties.lastModified` (time in
milliseconds, as `Date.getTime()`, absent when the backend reports none)
and the blob's metadata map (absent for a blob that was stored without
metadata).  `getProperties()` on a listed blob is modelled as reading the
stored blob's own fields. -/
structure BlobProperties where
  lastModified : Option Nat
  metadata : Option (List (Str × Str))
deriving DecidableEq, Repr

/-- A stored blob as returned by `listBlobsFlat` / `getBlobClient`. -/
structure BlobItem where
  name : Str
  properties : BlobProperties
deriving DecidableEq, Repr

/-- A container is the backend's blob list, in the order the backend
lists it (`listBlobsFlat` enumeration order). -/
abbrev Container := List BlobItem

/-- `blobClient.exists()` for a given name. -/
def blobExists (container : Container) (name : Str) : Bool :=
  container.any fun b => b.name == name

/-- `containerClient.listBlobsFlat({ prefix })`: the blobs whose name
starts with the prefix, in backend listing order. -/
def listBlobsFlat (container : Container) (pfx : Str) : List BlobItem :=
  container.filter fun b => pfx.isPrefixOf b.name

/-- Lookup of one metadata field: `properties.metadata?.[k]`. -/
def lookupMeta (m : List (Str × Str)) (k : Str) : Option Str :=
  (m.find? fun p => p.1 == k).map fun p => p.2

/-- JavaScript `x || y` for `x : string | undefined`: the fallback is
taken when `x` is `undefined` or the empty string (both falsy). -/
def jsOrStr (x : Option Str) (fallback : Str) : Str :=
  match x with
  | some s => if s = [] then fallback else s
  | none => fallback

/-- `properties.metadata?.[CACHE_KEY_METADATA] || blob.name`: the
original cache key recovered for a listed blob. -/
def getOriginalKey (b : BlobItem) : Str :=
  jsOrStr (b.properties.metadata.bind fun m => lookupMeta m CACHE_KEY_METADATA) b.name

/-- One entry of the `matches` array built in `findMatchingBlob`. -/
structure MatchEntry where
  blobItem : BlobItem
  cacheKey : Str
deriving DecidableEq, Repr

/-- `properties.lastModified?.getTime() || 0` for a stored blob. -/
def blobTime (b : BlobItem) : Nat :=
  b.properties.lastModified.getD 0

/-- `a.blobItem.properties.lastModified?.getTime() || 0`. -/
def lastModifiedTime (e : MatchEntry) : Nat :=
  blobTime e.blobItem

/-- Insert into a list already sorted by descending `lastModifiedTime`,
after every element of greater-or-equal time (so that, of two entries
with equal time, the one encountered earlier stays first). -/
def insertByTime (m : MatchEntry) : List MatchEntry → List MatchEntry
  | [] => [m]
  | x :: xs =>
      if lastModifiedTime x ≥ lastModifiedTime m then x :: insertByTime m xs
      else m :: x :: xs

/-- `matches.sort((a, b) => timeB - timeA)`: JavaScript `Array.sort` with
a consistent comparator is required (ECMAScript 2019) to produce the
stable descending-by-time permutation, which this insertion sort
computes. -/
def sortByTimeDesc (l : List MatchEntry) : List MatchEntry :=
  l.foldl (fun acc m => insertByTime m acc) []

/-- The record `{ cacheKey, blobName }` returned by `findMatchingBlob`. -/
structure BlobMatch where
  cacheKey : Str
  blobName : Str
deriving DecidableEq, Repr

/-- The restore-key loop of `AzureCacheProvider.findMatchingBlob`: for
each restore key in caller order, sanitize it, collect the blobs listed
under that prefix together with their recovered original keys, and on
the first non-empty match set return the entry with the latest
`lastModified` (`matches[0]` after the descending sort). -/
def findFirstPrefixMatch (sha256hex : Str → Str) (container : Container) :
    List Str → Option BlobMatch
  | [] => none
  | restoreKey :: rest =>
      match sortByTimeDesc
          ((listBlobsFlat container (sanitizeBlobName sha256hex restoreKey)).map
            fun b => MatchEntry.mk b (getOriginalKey b)) with
      | [] => findFirstPrefixMatch sha256hex container rest
      | best :: _ => some (BlobMatch.mk best.cacheKey best.blobItem.name)

/-- `AzureCacheProvider.findMatchingBlob`: exact match on the sanitized
primary key first (returning the caller's primary key verbatim), then
the restore-key prefix scan. -/
def findMatchingBlob (sha256hex : Str → Str) (container : Container)
    (primaryKey : Str) (restoreKeys : List Str) : Option BlobMatch :=
  if blobExists container (sanitizeBlobName sha256hex primaryKey) then
    some (BlobMatch.mk primaryKey (sanitizeBlobName sha256hex primaryKey))
  else
    findFirstPrefixMatch sha256hex container restoreKeys

/-- The winner of one comparison step: the incumbent stays unless the
challenger's time is strictly greater (head behaviour of the stable
insertion). -/
def pickNewer (best m : MatchEntry) : MatchEntry :=
  if lastModifiedTime best ≥ lastModifiedTime m then best else m

theorem insertByTime_cons (m x : MatchEntry) (xs : List MatchEntry) :
    ∃ t, insertByTime m (x :: xs) = pickNewer x m :: t := by
  by_cases h : lastModifiedTime x ≥ lastModifiedTime m
  · exact ⟨insertByTime m xs, by simp [insertByTime, pickNewer, h]⟩
  · exact ⟨x :: xs, by simp [insertByTime, pickNewer, h]⟩

theorem foldl_insertByTime_head (l : List MatchEntry) :
    ∀ (x : MatchEntry) (t : List MatchEntry),
      ∃ t', l.foldl (fun acc m => insertByTime m acc) (x :: t) =
        l.foldl pickNewer x :: t' := by
  induction l with
  | nil => intro x t; exact ⟨t, rfl⟩
  | cons m rest ih =>
      intro x t
      obtain ⟨t', ht'⟩ := insertByTime_cons m x t
      rw [List.foldl_cons, List.foldl_cons, ht']
      exact ih (pickNewer x m) t'

theorem sortByTimeDesc_cons_head (x : MatchEntry) (xs : List MatchEntry) :
    ∃ t, sortByTimeDesc (x :: xs) = xs.foldl pickNewer x :: t := by
  have h0 : sortByTimeDesc (x :: xs) =
      xs.foldl (fun acc m => insertByTime m acc) [x] := by
    simp [sortByTimeDesc, insertByTime]
  rw [h0]
  exact foldl_insertByTime_head xs x []

theorem lastModifiedTime_pickNewer_left (x m : MatchEntry) :
    lastModifiedTime x ≤ lastModifiedTime (pickNewer x m) := by
  unfold pickNewer
  split <;> omega

theorem lastModifiedTime_pickNewer_right (x m : MatchEntry) :
    lastModifiedTime m ≤ lastModifiedTime (pickNewer x m) := by
  unfold pickNewer
  split <;> omega

theorem foldl_pickNewer_spec (xs : List MatchEntry) :
    ∀ x : MatchEntry,
      (xs.foldl pickNewer x = x ∨ xs.foldl pickNewer x ∈ xs) ∧
      lastModifiedTime x ≤ lastModifiedTime (xs.foldl pickNewer x) ∧
      ∀ y ∈ xs, lastModifiedTime y ≤ lastModifiedTime (xs.foldl pickNewer x) := by
  induction xs with
  | nil => intro x; simp
  | cons m rest ih =>
      intro x
      rw [List.foldl_cons]
      obtain ⟨hmem, hx, hall⟩ := ih (pickNewer x m)
      refine ⟨?_, le_trans (lastModifiedTime_pickNewer_left x m) hx, ?_⟩
      · rcases hmem with h | h
        · rw [h]
          unfold pickNewer
          split
          · exact Or.inl rfl
          · exact Or.inr (List.mem_cons_self m rest)
        · exact Or.inr (List.mem_cons_of_mem m h)
      · intro y hy
        rcases List.mem_cons.mp hy with h | h
        · subst h
          exact le_trans (lastModifiedTime_pickNewer_right x y) hx
        · exact hall y h

theorem foldl_pickNewer_of_max (xs : List MatchEntry) :
    ∀ x : MatchEntry, (∀ y ∈ xs, lastModifiedTime y ≤ lastModifiedTime x) →
      xs.foldl pickNewer x = x := by
  induction xs with
  | nil => intro x _; rfl
  | cons m rest ih =>
      intro x h
      rw [List.foldl_cons]
      have hm : pickNewer x m = x := by
        unfold pickNewer
        rw [if_pos (h m (List.mem_cons_self m rest))]
      rw [hm]
      exact ih x fun y hy => h y (List.mem_cons_of_mem m hy)

theorem findFirstPrefixMatch_append_empty (sha256hex : Str → Str)
    (container : Container) (pre rks : List Str)
    (h : ∀ rk ∈ pre, listBlobsFlat container (sanitizeBlobName sha256hex rk) = []) :
    findFirstPrefixMatch sha256hex container (pre ++ rks) =
      findFirstPrefixMatch sha256hex container rks := by
  induction pre with
  | nil => rfl
  | cons rk pre' ih =>
      have h0 : listBlobsFlat container (sanitizeBlobName sha256hex rk) = [] :=
        h rk (List.mem_cons_self rk pre')
      rw [List.cons_append]
      simp only [findFirstPrefixMatch, h0, List.map_nil]
      exact ih fun r hr => h r (List.mem_cons_of_mem rk hr)

theorem findFirstPrefixMatch_cons_found (sha256hex : Str → Str)
    (container : Container) (rk : Str) (rest : List Str) (b : BlobItem)
    (bs : List BlobItem)
    (h : listBlobsFlat container (sanitizeBlobName sha256hex rk) = b :: bs) :
    findFirstPrefixMatch sha256hex container (rk :: rest) =
      some (BlobMatch.mk
        ((bs.map fun x => MatchEntry.mk x (getOriginalKey x)).foldl pickNewer
          (MatchEntry.mk b (getOriginalKey b))).cacheKey
        ((bs.map fun x => MatchEntry.mk x (getOriginalKey x)).foldl pickNewer
          (MatchEntry.mk b (getOriginalKey b))).blobItem.name) := by
  obtain ⟨t, ht⟩ := sortByTimeDesc_cons_head (MatchEntry.mk b (getOriginalKey b))
    (bs.map fun x => MatchEntry.mk x (getOriginalKey x))
  simp only [findFirstPrefixMatch, h, List.map_cons, ht]

/-- Claim C1: for every primary key and every list of restore keys, if a
stored object exists under the sanitized primary key, then
`findMatchingBlob` returns that exact match with `cacheKey` equal to the
primary key (and `blobName` the sanitized primary key), never a prefix
match, regardless of the contents of the restore-key list. -/
theorem findMatchingBlob_exact_match_wins (sha256hex : Str → Str)
    (container : Container) (primaryKey : Str) (restoreKeys : List Str)
    (h : blobExists container (sanitizeBlobName sha256hex primaryKey) = true) :
    findMatchingBlob sha256hex container primaryKey restoreKeys =
      some (BlobMatch.mk primaryKey (sanitizeBlobName sha256hex primaryKey)) := by
  simp [findMatchingBlob, h]

/-- Stored blob under key "linux-v1", used in concrete runs. -/
def blobLinuxV1 : BlobItem :=
  BlobItem.mk "linux-v1".toList
    (BlobProperties.mk (some 5) (some [(CACHE_KEY_METADATA, "linux-v1".toList)]))

/-- Stored blob under key "linux-v2", more recent, used in concrete runs. -/
def blobLinuxV2 : BlobItem :=
  BlobItem.mk "linux-v2".toList
    (BlobProperties.mk (some 9) (some [(CACHE_KEY_METADATA, "linux-v2".toList)]))

theorem findMatchingBlob_exact_match_wins_witness :
    blobExists [blobLinuxV1] (sanitizeBlobName shaFix "linux-v1".toList) = true ∧
    findMatchingBlob shaFix [blobLinuxV1] "linux-v1".toList ["zzz".toList] =
      some (BlobMatch.mk "linux-v1".toList
        (sanitizeBlobName shaFix "linux-v1".toList)) := by
  have h : blobExists [blobLinuxV1] (sanitizeBlobName shaFix "linux-v1".toList) = true := by
    decide
  exact ⟨h, findMatchingBlob_exact_match_wins shaFix [blobLinuxV1]
    "linux-v1".toList ["zzz".toList] h⟩

/-- Claim C2: with no exact match, `findMatchingBlob` returns a candidate
from the first restore key (in caller-given order) whose sanitized form
matches at least one stored object, choosing within that prefix's match
set an object with the latest backend-reported `lastModified`; the
result does not depend on the lower-precedence keys `post`, so they are
never the source of the answer, and if no prefix matches any object the
result is `none`. -/
theorem findMatchingBlob_prefix_fallback (sha256hex : Str → Str)
    (container : Container) (primaryKey : Str)
    (hno : blobExists container (sanitizeBlobName sha256hex primaryKey) = false) :
    (∀ restoreKeys : List Str,
      (∀ rk ∈ restoreKeys, listBlobsFlat container (sanitizeBlobName sha256hex rk) = []) →
      findMatchingBlob sha256hex container primaryKey restoreKeys = none) ∧
    (∀ (pre : List Str) (rk : Str) (post : List Str),
      (∀ rk' ∈ pre, listBlobsFlat container (sanitizeBlobName sha256hex rk') = []) →
      listBlobsFlat container (sanitizeBlobName sha256hex rk) ≠ [] →
      ∃ b ∈ listBlobsFlat container (sanitizeBlobName sha256hex rk),
        findMatchingBlob sha256hex container primaryKey (pre ++ rk :: post) =
          some (BlobMatch.mk (getOriginalKey b) b.name) ∧
        ∀ b' ∈ listBlobsFlat container (sanitizeBlobName sha256hex rk),
          blobTime b' ≤ blobTime b) := by
  constructor
  · intro restoreKeys hall
    unfold findMatchingBlob
    rw [if_neg (by rw [hno]; exact Bool.false_ne_true)]
    induction restoreKeys with
    | nil => rfl
    | cons rk rest ih =>
        have h0 := hall rk (List.mem_cons_self rk rest)
        simp only [findFirstPrefixMatch, h0, List.map_nil]
        exact ih fun r hr => hall r (List.mem_cons_of_mem rk hr)
  · intro pre rk post hpre hne
    obtain ⟨b, bs, hb⟩ : ∃ b bs,
        listBlobsFlat container (sanitizeBlobName sha256hex rk) = b :: bs := by
      cases hl : listBlobsFlat container (sanitizeBlobName sha256hex rk) with
      | nil => exact absurd hl hne
      | cons x xs => exact ⟨x, xs, rfl⟩
    set f : BlobItem → MatchEntry := fun x => MatchEntry.mk x (getOriginalKey x) with hf
    set r : MatchEntry := (bs.map f).foldl pickNewer (f b) with hr
    obtain ⟨hmem, hxle, hall⟩ := foldl_pickNewer_spec (bs.map f) (f b)
    have hrb : r.blobItem ∈ b :: bs := by
      rw [hr]
      rcases hmem with h | h
      · rw [h, hf]
        exact List.mem_cons_self b bs
      · obtain ⟨x, hx, hxe⟩ := List.mem_map.mp h
        rw [← hxe, hf]
        exact List.mem_cons_of_mem b hx
    have hkey : r.cacheKey = getOriginalKey r.blobItem := by
      rw [hr]
      rcases hmem with h | h
      · rw [h]
      · obtain ⟨x, _, hxe⟩ := List.mem_map.mp h
        rw [← hxe]
    refine ⟨r.blobItem, by rw [hb]; exact hrb, ?_, ?_⟩
    · unfold findMatchingBlob
      rw [if_neg (by rw [hno]; exact Bool.false_ne_true)]
      rw [findFirstPrefixMatch_append_empty sha256hex container pre (rk :: post) hpre]
      rw [findFirstPrefixMatch_cons_found sha256hex container rk post b bs hb]
      rw [hkey]
    · intro b' hb'
      rw [hb] at hb'
      rcases List.mem_cons.mp hb' with h | h
      · subst h
        exact hxle
      · exact hall (f b') (List.mem_map.mpr ⟨b', h, rfl⟩)

theorem findMatchingBlob_prefix_fallback_witness :
    (blobExists [blobLinuxV1, blobLinuxV2]
        (sanitizeBlobName shaFix "linux-v3".toList) = false ∧
     (∀ rk' ∈ (["windows-"] : List String).map String.toList,
        listBlobsFlat [blobLinuxV1, blobLinuxV2]
          (sanitizeBlobName shaFix rk') = []) ∧
     listBlobsFlat [blobLinuxV1, blobLinuxV2]
        (sanitizeBlobName shaFix "linux-".toList) ≠ []) ∧
    (∃ b ∈ listBlobsFlat [blobLinuxV1, blobLinuxV2]
        (sanitizeBlobName shaFix "linux-".toList),
      findMatchingBlob shaFix [blobLinuxV1, blobLinuxV2] "linux-v3".toList
          (["windows-".toList] ++ "linux-".toList :: ["fallback".toList]) =
        some (BlobMatch.mk (getOriginalKey b) b.name) ∧
      ∀ b' ∈ listBlobsFlat [blobLinuxV1, blobLinuxV2]
          (sanitizeBlobName shaFix "linux-".toList),
        blobTime b' ≤ blobTime b) := by
  have hno : blobExists [blobLinuxV1, blobLinuxV2]
      (sanitizeBlobName shaFix "linux-v3".toList) = false := by decide
  have hpre : ∀ rk' ∈ (["windows-"] : List String).map String.toList,
      listBlobsFlat [blobLinuxV1, blobLinuxV2] (sanitizeBlobName shaFix rk') = [] := by
    decide
  have hne : listBlobsFlat [blobLinuxV1, blobLinuxV2]
      (sanitizeBlobName shaFix "linux-".toList) ≠ [] := by decide
  exact ⟨⟨hno, hpre, hne⟩,
    (findMatchingBlob_prefix_fallback shaFix [blobLinuxV1, blobLinuxV2]
        "linux-v3".toList hno).2
      ["windows-".toList] "linux-".toList ["fallback".toList]
      (by
        intro rk' hrk'
        exact hpre rk' (by simpa using hrk'))
      hne⟩

/-- Blob "tie-a", `lastModified` 5, no metadata. -/
def tieBlobA : BlobItem :=
  BlobItem.mk "tie-a".toList (BlobProperties.mk (some 5) none)

/-- Blob "tie-b", `lastModified` 5, no metadata. -/
def tieBlobB : BlobItem :=
  BlobItem.mk "tie-b".toList (BlobProperties.mk (some 5) none)

/-- Claim C9 is false as stated: two runs of the same resolve over the
same set of stored objects (the two containers are permutations of each
other), differing only in the order the backend lists them, return
different objects when the shared `lastModified` timestamp ties. -/
theorem findMatchingBlob_tie_not_listing_order_independent :
    ([tieBlobA, tieBlobB] : Container).Perm [tieBlobB, tieBlobA] ∧
    findMatchingBlob shaFix [tieBlobA, tieBlobB] "p".toList ["tie-".toList] =
      some (BlobMatch.mk "tie-a".toList "tie-a".toList) ∧
    findMatchingBlob shaFix [tieBlobB, tieBlobA] "p".toList ["tie-".toList] =
      some (BlobMatch.mk "tie-b".toList "tie-b".toList) ∧
    findMatchingBlob shaFix [tieBlobA, tieBlobB] "p".toList ["tie-".toList] ≠
      findMatchingBlob shaFix [tieBlobB, tieBlobA] "p".toList ["tie-".toList] := by
  refine ⟨by decide, by decide, by decide, by decide⟩

/-- Claim C9 (amended): within one prefix's match set ties on the latest
`lastModified` are broken by the backend listing order — whenever the
first-listed match already has maximal time (in particular whenever all
matches share the identical timestamp), the first-listed object is
selected.  `findMatchingBlob` is a pure function of the listed order, so
a fixed listing order always reproduces the same object, but two
different listing orders of the same set may not (see the
counterexample). -/
theorem findMatchingBlob_tie_first_listed (sha256hex : Str → Str)
    (container : Container) (primaryKey : Str)
    (hno : blobExists container (sanitizeBlobName sha256hex primaryKey) = false)
    (pre : List Str) (rk : Str) (post : List Str)
    (hpre : ∀ rk' ∈ pre, listBlobsFlat container (sanitizeBlobName sha256hex rk') = [])
    (b : BlobItem) (bs : List BlobItem)
    (hb : listBlobsFlat container (sanitizeBlobName sha256hex rk) = b :: bs)
    (hmax : ∀ b' ∈ bs, blobTime b' ≤ blobTime b) :
    findMatchingBlob sha256hex container primaryKey (pre ++ rk :: post) =
      some (BlobMatch.mk (getOriginalKey b) b.name) := by
  unfold findMatchingBlob
  rw [if_neg (by rw [hno]; exact Bool.false_ne_true)]
  rw [findFirstPrefixMatch_append_empty sha256hex container pre (rk :: post) hpre]
  rw [findFirstPrefixMatch_cons_found sha256hex container rk post b bs hb]
  have hfold : ((bs.map fun x => MatchEntry.mk x (getOriginalKey x)).foldl pickNewer
      (MatchEntry.mk b (getOriginalKey b))) = MatchEntry.mk b (getOriginalKey b) := by
    apply foldl_pickNewer_of_max
    intro y hy
    obtain ⟨x, hx, hxe⟩ := List.mem_map.mp hy
    rw [← hxe]
    exact hmax x hx
  rw [hfold]

theorem findMatchingBlob_tie_first_listed_witness :
    (blobExists [tieBlobA, tieBlobB] (sanitizeBlobName shaFix "p".toList) = false ∧
     listBlobsFlat [tieBlobA, tieBlobB] (sanitizeBlobName shaFix "tie-".toList) =
       [tieBlobA, tieBlobB] ∧
     (∀ b' ∈ [tieBlobB], blobTime b' ≤ blobTime tieBlobA)) ∧
    findMatchingBlob shaFix [tieBlobA, tieBlobB] "p".toList
        (([] : List Str) ++ "tie-".toList :: []) =
      some (BlobMatch.mk (getOriginalKey tieBlobA) tieBlobA.name) := by
  have h1 : blobExists [tieBlobA, tieBlobB] (sanitizeBlobName shaFix "p".toList) = false := by
    decide
  have h2 : listBlobsFlat [tieBlobA, tieBlobB] (sanitizeBlobName shaFix "tie-".toList) =
      [tieBlobA, tieBlobB] := by decide
  have h3 : ∀ b' ∈ [tieBlobB], blobTime b' ≤ blobTime tieBlobA := by decide
  exact ⟨⟨h1, h2, h3⟩,
    findMatchingBlob_tie_first_listed shaFix [tieBlobA, tieBlobB] "p".toList h1
      [] "tie-".toList [] (by simp) tieBlobA [tieBlobB] h2 h3⟩

/-- `type CompressionMethod = "gzip" | "zstd" | "none"`. -/
inductive CompressionMethod where
  | gzip
  | zstd
  | none
deriving DecidableEq, Repr

/-- `getCompressionExtension` in `ArchiveUtils.ts`. -/
def getCompressionExtension : CompressionMethod → Str
  | CompressionMethod.gzip => ".tar.gz".toList
  | CompressionMethod.zstd => ".tar.zst".toList
  | CompressionMethod.none => ".tar".toList

/-- `ArchiveUtils.getArchiveExtension` (delegates to
`getCompressionExtension`). -/
def getArchiveExtension (method : CompressionMethod) : Str :=
  getCompressionExtension method

/-- `s.endsWith(suffix)` of JavaScript. -/
def endsWith (s : Str) (suffix : Str) : Bool :=
  suffix.isSuffixOf s

/-- `ArchiveUtils.detectCompressionMethod`. -/
def detectCompressionMethod (archivePath : Str) : CompressionMethod :=
  if endsWith archivePath ".tar.gz".toList || endsWith archivePath ".tgz".toList then
    CompressionMethod.gzip
  else if endsWith archivePath ".tar.zst".toList then
    CompressionMethod.zstd
  else
    CompressionMethod.none

/-- Outcomes of the external operations one provider call can perform:
whether `io.which("tar", true)` finds the tool, the `tar` exit codes,
whether the storage API calls succeed, the clock (`Date.now()` /
`new Date().toISOString()`), and the temp directory name this call
creates. -/
structure Env where
  tarFound : Bool
  tarCreateExit : Nat
  tarExtractExit : Nat
  backendOk : Bool
  downloadOk : Bool
  uploadOk : Bool
  unlinkManifestOk : Bool
  nowMs : Nat
  nowIso : Str
  tempDir : Str

/-- Observable external events of one call. -/
inductive Event where
  | writeFile (path : Str)
  | unlink (path : Str)
  | unlinkFailed (path : Str)
  | tarCreate (exitCode : Nat)
  | tarExtract (exitCode : Nat)
  | download (blobName : Str)
  | upload (blobName : Str) (metadata : List (Str × Str))
  | cleanupTemp (dir : Str)
deriving DecidableEq, Repr

/-- `path.join(dir, file)`. -/
def pathJoin (dir file : Str) : Str :=
  dir ++ '/' :: file

/-- The fixed file name `"manifest.txt"` of the transient manifest. -/
def manifestName : Str := "manifest.txt".toList

/-- `ArchiveUtils.createArchive`: resolve `tar` (throws ToolNotFound when
absent), write the manifest file, run `tar`; a nonzero exit code throws
(`Tar failed with exit code ...`) — note the manifest unlink in the
source sits after that throw, so it only runs on the zero-exit path,
where its own failure is swallowed (`.catch(() => {})`).  The manifest's
content (the workspace-relative path list) is not tracked because no
claim depends on it. -/
def createArchive (env : Env) (archiveFolder : Str) (cachePaths : List Str)
    (method : CompressionMethod) : List Event × Except Str Str :=
  if env.tarFound then
    if env.tarCreateExit = 0 then
      if env.unlinkManifestOk then
        ([Event.writeFile (pathJoin archiveFolder manifestName), Event.tarCreate 0,
          Event.unlink (pathJoin archiveFolder manifestName)],
         Except.ok (pathJoin archiveFolder ("cache".toList ++ getCompressionExtension method)))
      else
        ([Event.writeFile (pathJoin archiveFolder manifestName), Event.tarCreate 0,
          Event.unlinkFailed (pathJoin archiveFolder manifestName)],
         Except.ok (pathJoin archiveFolder ("cache".toList ++ getCompressionExtension method)))
    else
      ([Event.writeFile (pathJoin archiveFolder manifestName),
        Event.tarCreate env.tarCreateExit],
       Except.error "Tar failed with exit code".toList)
  else
    ([], Except.error "Unable to locate executable file: tar".toList)

/-- `ArchiveUtils.extractArchive`: resolve `tar`, run it, throw on a
nonzero exit code. -/
def extractArchive (env : Env) (archivePath : Str) (method : CompressionMethod) :
    List Event × Except Str Unit :=
  if env.tarFound then
    if env.tarExtractExit = 0 then
      ([Event.tarExtract 0], Except.ok ())
    else
      ([Event.tarExtract env.tarExtractExit],
       Except.error "Tar extraction failed with exit code".toList)
  else
    ([], Except.error "Unable to locate executable file: tar".toList)

/-- An environment in which `tar -c` exits with status 1 and every other
external operation would succeed. -/
def envTarFail : Env :=
  Env.mk true 1 0 true true true true 5 "2026-10-12T00:00:00.000Z".toList "/tmp/t".toList

/-- Claim C8 is false as stated: on the exit path where the archiving
tool exits with nonzero status, `createArchive` throws before reaching
the manifest cleanup, so the manifest file it wrote is not removed on
that path (even though deleting it would have succeeded). -/
theorem createArchive_manifest_not_removed_on_tar_failure :
    (createArchive envTarFail "/tmp/t".toList ["src".toList] CompressionMethod.gzip).1 =
      [Event.writeFile (pathJoin "/tmp/t".toList manifestName), Event.tarCreate 1] ∧
    Event.unlink (pathJoin "/tmp/t".toList manifestName) ∉
      (createArchive envTarFail "/tmp/t".toList ["src".toList] CompressionMethod.gzip).1 ∧
    (createArchive envTarFail "/tmp/t".toList ["src".toList] CompressionMethod.gzip).2 =
      Except.error "Tar failed with exit code".toList := by
  refine ⟨by decide, by decide, rfl⟩

/-- Claim C8 (amended): the transient manifest is best-effort deleted on
the successful (zero tar exit) path only — there the unlink is always
attempted and its own failure is swallowed (the call still succeeds);
on the nonzero-exit path `createArchive` throws before the deletion and
the manifest is left in the archive folder (the caller's temp-directory
cleanup removes it later). -/
theorem createArchive_manifest_removal (env : Env) (archiveFolder : Str)
    (cachePaths : List Str) (method : CompressionMethod)
    (hfound : env.tarFound = true) :
    (env.tarCreateExit = 0 →
      createArchive env archiveFolder cachePaths method =
        ([Event.writeFile (pathJoin archiveFolder manifestName), Event.tarCreate 0,
          if env.unlinkManifestOk then Event.unlink (pathJoin archiveFolder manifestName)
          else Event.unlinkFailed (pathJoin archiveFolder manifestName)],
         Except.ok (pathJoin archiveFolder ("cache".toList ++ getCompressionExtension method)))) ∧
    (env.tarCreateExit ≠ 0 →
      Event.unlink (pathJoin archiveFolder manifestName) ∉
        (createArchive env archiveFolder cachePaths method).1 ∧
      (createArchive env archiveFolder cachePaths method).2 =
        Except.error "Tar failed with exit code".toList) := by
  constructor
  · intro hzero
    unfold createArchive
    rw [hfound, if_pos rfl, if_pos hzero]
    by_cases hu : env.unlinkManifestOk
    · rw [if_pos hu, if_pos hu]
    · rw [if_neg hu, if_neg hu]
  · intro hnz
    unfold createArchive
    rw [hfound, if_pos rfl, if_neg hnz]
    refine ⟨?_, rfl⟩
    intro hmem
    rcases List.mem_cons.mp hmem with h | h
    · exact Event.noConfusion h
    · rcases List.mem_cons.mp h with h' | h'
      · exact Event.noConfusion h'
      · exact absurd h' (List.not_mem_nil _)

/-- An environment in which every external operation succeeds. -/
def envOk : Env :=
  Env.mk true 0 0 true true true true 5 "2026-10-12T00:00:00.000Z".toList "/tmp/t".toList

theorem createArchive_manifest_removal_witness :
    envOk.tarFound = true ∧
    ((envOk.tarCreateExit = 0 →
      createArchive envOk "/tmp/t".toList ["src".toList] CompressionMethod.gzip =
        ([Event.writeFile (pathJoin "/tmp/t".toList manifestName), Event.tarCreate 0,
          if envOk.unlinkManifestOk then Event.unlink (pathJoin "/tmp/t".toList manifestName)
          else Event.unlinkFailed (pathJoin "/tmp/t".toList manifestName)],
         Except.ok (pathJoin "/tmp/t".toList
           ("cache".toList ++ getCompressionExtension CompressionMethod.gzip)))) ∧
    (envOk.tarCreateExit ≠ 0 →
      Event.unlink (pathJoin "/tmp/t".toList manifestName) ∉
        (createArchive envOk "/tmp/t".toList ["src".toList] CompressionMethod.gzip).1 ∧
      (createArchive envOk "/tmp/t".toList ["src".toList] CompressionMethod.gzip).2 =
        Except.error "Tar failed with exit code".toList)) :=
  ⟨rfl, createArchive_manifest_removal envOk "/tmp/t".toList ["src".toList]
    CompressionMethod.gzip rfl⟩

theorem getLast?_of_suffix {s p : Str} (hs : s <:+ p) (hne : s ≠ []) :
    p.getLast? = s.getLast? := by
  obtain ⟨t, rfl⟩ := hs
  exact List.getLast?_append_of_ne_nil t hne

theorem suffix_getLast_clash {s₁ s₂ p : Str} (h₁ : s₁ <:+ p) (h₂ : s₂ <:+ p)
    (hne₁ : s₁ ≠ []) (hne₂ : s₂ ≠ []) (hl : s₁.getLast? ≠ s₂.getLast?) : False := by
  have e₁ := getLast?_of_suffix h₁ hne₁
  have e₂ := getLast?_of_suffix h₂ hne₂
  rw [e₁] at e₂
  exact hl e₂

theorem detect_of_suffix (method : CompressionMethod) (p : Str)
    (h : endsWith p (getCompressionExtension method) = true) :
    detectCompressionMethod p = method := by
  rw [endsWith, List.isSuffixOf_iff_suffix] at h
  unfold detectCompressionMethod
  simp only [endsWith, Bool.or_eq_true, List.isSuffixOf_iff_suffix]
  cases method with
  | gzip =>
      simp only [getCompressionExtension] at h
      rw [if_pos (Or.inl h)]
  | zstd =>
      simp only [getCompressionExtension] at h
      have h1 : ¬ (".tar.gz".toList <:+ p) := fun hc =>
        suffix_getLast_clash hc h (by decide) (by decide) (by decide)
      have h2 : ¬ (".tgz".toList <:+ p) := fun hc =>
        suffix_getLast_clash hc h (by decide) (by decide) (by decide)
      rw [if_neg (fun hc => hc.elim h1 h2), if_pos h]
  | none =>
      simp only [getCompressionExtension] at h
      have h1 : ¬ (".tar.gz".toList <:+ p) := fun hc =>
        suffix_getLast_clash hc h (by decide) (by decide) (by decide)
      have h2 : ¬ (".tgz".toList <:+ p) := fun hc =>
        suffix_getLast_clash hc h (by decide) (by decide) (by decide)
      have h3 : ¬ (".tar.zst".toList <:+ p) := fun hc =>
        suffix_getLast_clash hc h (by decide) (by decide) (by decide)
      rw [if_neg (fun hc => hc.elim h1 h2), if_neg h3]

theorem createArchive_ok_path (env : Env) (archiveFolder : Str)
    (cachePaths : List Str) (method : CompressionMethod) (evs : List Event) (ap : Str)
    (h : createArchive env archiveFolder cachePaths method = (evs, Except.ok ap)) :
    ap = pathJoin archiveFolder ("cache".toList ++ getCompressionExtension method) := by
  unfold createArchive at h
  by_cases hf : env.tarFound = true
  · rw [if_pos hf] at h
    by_cases hz : env.tarCreateExit = 0
    · rw [if_pos hz] at h
      by_cases hu : env.unlinkManifestOk = true
      · rw [if_pos hu] at h
        injection h with h1 h2
        injection h2 with h3
        exact h3.symm
      · rw [if_neg hu] at h
        injection h with h1 h2
        injection h2 with h3
        exact h3.symm
    · rw [if_neg hz] at h
      injection h with h1 h2
      exact Except.noConfusion h2
  · rw [if_neg hf] at h
    injection h with h1 h2
    exact Except.noConfusion h2

/-- Claim C10: compression-method detection inverts extension assignment —
for every method `m`, `detectCompressionMethod` applied to any archive
path ending with `getArchiveExtension m` returns `m`, and in particular
it returns `m` on the archive path `createArchive` produces for `m`. -/
theorem detectCompressionMethod_inverts_extension (method : CompressionMethod)
    (p : Str) (h : endsWith p (getArchiveExtension method) = true) :
    detectCompressionMethod p = method ∧
    ∀ (env : Env) (archiveFolder : Str) (cachePaths : List Str)
      (evs : List Event) (ap : Str),
      createArchive env archiveFolder cachePaths method = (evs, Except.ok ap) →
      detectCompressionMethod ap = method := by
  refine ⟨detect_of_suffix method p h, ?_⟩
  intro env archiveFolder cachePaths evs ap hca
  rw [createArchive_ok_path env archiveFolder cachePaths method evs ap hca]
  apply detect_of_suffix
  rw [endsWith, List.isSuffixOf_iff_suffix]
  exact ⟨archiveFolder ++ '/' :: "cache".toList, by simp [pathJoin]⟩

theorem detectCompressionMethod_inverts_extension_witness :
    endsWith "build/cache.tar.zst".toList
      (getArchiveExtension CompressionMethod.zstd) = true ∧
    (detectCompressionMethod "build/cache.tar.zst".toList = CompressionMethod.zstd ∧
    ∀ (env : Env) (archiveFolder : Str) (cachePaths : List Str)
      (evs : List Event) (ap : Str),
      createArchive env archiveFolder cachePaths CompressionMethod.zstd =
        (evs, Except.ok ap) →
      detectCompressionMethod ap = CompressionMethod.zstd) := by
  have h : endsWith "build/cache.tar.zst".toList
      (getArchiveExtension CompressionMethod.zstd) = true := by decide
  exact ⟨h, detectCompressionMethod_inverts_extension CompressionMethod.zstd
    "build/cache.tar.zst".toList h⟩

/-- The provider's `compressionMethod` field: initialized to `"gzip"` in
the class and never reassigned. -/
def providerCompressionMethod : CompressionMethod := CompressionMethod.gzip

/-- The metadata map `uploadBlob` attaches:
`{ [CACHE_KEY_METADATA]: cacheKey, [CREATED_AT_METADATA]: new Date().toISOString() }`. -/
def uploadMetadata (env : Env) (cacheKey : Str) : List (Str × Str) :=
  [(CACHE_KEY_METADATA, cacheKey), (CREATED_AT_METADATA, env.nowIso)]

/-- The body of the `try` block of `AzureCacheProvider.restoreCache`.
`ensureContainerExists()` catches its own `createIfNotExists` failure
internally (only `core.debug` is emitted), so it contributes nothing
observable.  `env.backendOk = false` models a storage-API failure
(existence check, listing or `getProperties`) thrown while resolving;
`env.downloadOk = false` a failed blob download.  The temp directory is
created only on the download path and its removal (`finally`) is the
trailing `cleanupTemp` event. -/
def restoreCacheTry (env : Env) (sha256hex : Str → Str) (container : Container)
    (primaryKey : Str) (restoreKeys : List Str) (lookupOnly : Bool) :
    List Event × Except Str (Option Str) :=
  if env.backendOk then
    match findMatchingBlob sha256hex container primaryKey restoreKeys with
    | Option.none => ([], Except.ok Option.none)
    | some m =>
      if lookupOnly then
        ([], Except.ok (some m.cacheKey))
      else
        if env.downloadOk then
          match extractArchive env
              (pathJoin env.tempDir
                ("cache".toList ++ getArchiveExtension providerCompressionMethod))
              providerCompressionMethod with
          | (evs, Except.ok _) =>
              (Event.download m.blobName :: evs ++ [Event.cleanupTemp env.tempDir],
               Except.ok (some m.cacheKey))
          | (evs, Except.error e) =>
              (Event.download m.blobName :: evs ++ [Event.cleanupTemp env.tempDir],
               Except.error e)
        else
          ([Event.cleanupTemp env.tempDir],
           Except.error "Failed to get download stream".toList)
  else
    ([], Except.error "backend request failed".toList)

/-- The outcome of one `restoreCache` call: the returned value
(`undefined` = `Option.none`), the external events performed, and
whether `core.warning` fired. -/
structure RestoreOutcome where
  value : Option Str
  events : List Event
  warned : Bool
deriving Repr

/-- `AzureCacheProvider.restoreCache`: the `try` body wrapped in
`catch (error) { core.warning(...); return undefined; }`. -/
def restoreCache (env : Env) (sha256hex : Str → Str) (container : Container)
    (primaryKey : Str) (restoreKeys : List Str) (lookupOnly : Bool) :
    RestoreOutcome :=
  match restoreCacheTry env sha256hex container primaryKey restoreKeys lookupOnly with
  | (evs, Except.ok v) => RestoreOutcome.mk v evs false
  | (evs, Except.error _) => RestoreOutcome.mk Option.none evs true

/-- The body of the `try` block of `AzureCacheProvider.saveCache`: on
success it returns `Date.now()` together with the container as extended
by the upload (`uploadStream` stores the blob with the two metadata
fields; its `lastModified` is backend-assigned at upload time).
`env.backendOk = false` models a storage-API failure at the existence
check; `env.uploadOk = false` a failed upload, which leaves no
discoverable blob behind. -/
def saveCacheTry (env : Env) (sha256hex : Str → Str) (container : Container)
    (cachePaths : List Str) (primaryKey : Str) :
    List Event × Except Str (Int × Container) :=
  if env.backendOk then
    if blobExists container (sanitizeBlobName sha256hex primaryKey) then
      ([], Except.ok (-1, container))
    else
      match createArchive env env.tempDir cachePaths providerCompressionMethod with
      | (evs, Except.error e) =>
          (evs ++ [Event.cleanupTemp env.tempDir], Except.error e)
      | (evs, Except.ok _) =>
          if env.uploadOk then
            (evs ++ [Event.upload (sanitizeBlobName sha256hex primaryKey)
                (uploadMetadata env primaryKey),
              Event.cleanupTemp env.tempDir],
             Except.ok ((env.nowMs : Int),
               container ++ [BlobItem.mk (sanitizeBlobName sha256hex primaryKey)
                 (BlobProperties.mk (some env.nowMs)
                   (some (uploadMetadata env primaryKey)))]))
          else
            (evs ++ [Event.cleanupTemp env.tempDir],
             Except.error "upload request failed".toList)
  else
    ([], Except.error "backend request failed".toList)

/-- The outcome of one `saveCache` call: the returned cache id (`-1` is
the skip/failure sentinel), the container afterwards, the external
events performed, and whether `core.warning` fired. -/
structure SaveOutcome where
  result : Int
  container : Container
  events : List Event
  warned : Bool
deriving Repr

/-- `AzureCacheProvider.saveCache`: the `try` body wrapped in
`catch (error) { core.warning(...); return -1; }` (an error leaves the
container as it was). -/
def saveCache (env : Env) (sha256hex : Str → Str) (container : Container)
    (cachePaths : List Str) (primaryKey : Str) : SaveOutcome :=
  match saveCacheTry env sha256hex container cachePaths primaryKey with
  | (evs, Except.ok (cacheId, container')) => SaveOutcome.mk cacheId container' evs false
  | (evs, Except.error _) => SaveOutcome.mk (-1) container evs true

/-- The number of stored blobs with the given name. -/
def countBlobsNamed (container : Container) (name : Str) : Nat :=
  (container.filter fun b => b.name == name).length

theorem createArchive_ok_of_success (env : Env) (archiveFolder : Str)
    (cachePaths : List Str) (method : CompressionMethod)
    (hf : env.tarFound = true) (hz : env.tarCreateExit = 0) :
    ∃ evs, createArchive env archiveFolder cachePaths method =
      (evs, Except.ok (pathJoin archiveFolder
        ("cache".toList ++ getCompressionExtension method))) := by
  unfold createArchive
  rw [if_pos hf, if_pos hz]
  by_cases hu : env.unlinkManifestOk = true
  · rw [if_pos hu]
    exact ⟨_, rfl⟩
  · rw [if_neg hu]
    exact ⟨_, rfl⟩

theorem countBlobsNamed_eq_zero (container : Container) (name : Str)
    (h : blobExists container name = false) :
    countBlobsNamed container name = 0 := by
  unfold blobExists at h
  rw [List.any_eq_false] at h
  unfold countBlobsNamed
  rw [List.length_eq_zero, List.filter_eq_nil_iff]
  exact h

theorem saveCache_fresh (env : Env) (sha256hex : Str → Str) (container : Container)
    (cachePaths : List Str) (primaryKey : Str)
    (hne : blobExists container (sanitizeBlobName sha256hex primaryKey) = false)
    (hbe : env.backendOk = true) (hf : env.tarFound = true)
    (hz : env.tarCreateExit = 0) (hup : env.uploadOk = true) :
    ∃ evs, saveCache env sha256hex container cachePaths primaryKey =
      SaveOutcome.mk (env.nowMs : Int)
        (container ++ [BlobItem.mk (sanitizeBlobName sha256hex primaryKey)
          (BlobProperties.mk (some env.nowMs) (some (uploadMetadata env primaryKey)))])
        evs false ∧
      Event.upload (sanitizeBlobName sha256hex primaryKey)
        (uploadMetadata env primaryKey) ∈ evs := by
  obtain ⟨aevs, hca⟩ := createArchive_ok_of_success env env.tempDir cachePaths
    providerCompressionMethod hf hz
  unfold saveCache saveCacheTry
  rw [if_pos hbe, if_neg (by rw [hne]; exact Bool.false_ne_true), hca]
  dsimp only
  rw [if_pos hup]
  exact ⟨_, rfl, by simp⟩

/-- Claim C3: `saveCache` is idempotent — when an object already exists
under the sanitized name the call returns the `-1` skip sentinel with no
external events (no archive creation, no upload) and the container
unchanged, so a fresh save followed by a second save of the same key
leaves exactly one stored object under that name and never overwrites
it. -/
theorem saveCache_idempotent (env₁ env₂ : Env) (sha256hex : Str → Str)
    (container : Container) (paths₁ paths₂ : List Str) (primaryKey : Str) :
    (env₁.backendOk = true →
      blobExists container (sanitizeBlobName sha256hex primaryKey) = true →
      saveCache env₁ sha256hex container paths₁ primaryKey =
        SaveOutcome.mk (-1) container [] false) ∧
    (env₁.backendOk = true → env₁.tarFound = true → env₁.tarCreateExit = 0 →
      env₁.uploadOk = true → env₂.backendOk = true →
      blobExists container (sanitizeBlobName sha256hex primaryKey) = false →
      countBlobsNamed (saveCache env₁ sha256hex container paths₁ primaryKey).container
          (sanitizeBlobName sha256hex primaryKey) = 1 ∧
      saveCache env₂ sha256hex
          (saveCache env₁ sha256hex container paths₁ primaryKey).container
          paths₂ primaryKey =
        SaveOutcome.mk (-1)
          (saveCache env₁ sha256hex container paths₁ primaryKey).container [] false) := by
  constructor
  · intro hbe hex
    unfold saveCache saveCacheTry
    rw [if_pos hbe, if_pos hex]
  · intro hbe hf hz hup hbe₂ hne
    obtain ⟨evs, ho, _⟩ := saveCache_fresh env₁ sha256hex container paths₁ primaryKey
      hne hbe hf hz hup
    rw [ho]
    have hcount0 := countBlobsNamed_eq_zero container
      (sanitizeBlobName sha256hex primaryKey) hne
    unfold countBlobsNamed at hcount0 ⊢
    constructor
    · simp only [List.filter_append, List.length_append, hcount0,
        List.length_eq_zero.mp hcount0]
      simp
    · have hex₂ : blobExists
          (container ++ [BlobItem.mk (sanitizeBlobName sha256hex primaryKey)
            (BlobProperties.mk (some env₁.nowMs)
              (some (uploadMetadata env₁ primaryKey)))])
          (sanitizeBlobName sha256hex primaryKey) = true := by
        unfold blobExists
        simp
      unfold saveCache saveCacheTry
      rw [if_pos hbe₂, if_pos hex₂]

theorem saveCache_idempotent_witness :
    (envOk.backendOk = true ∧ envOk.tarFound = true ∧ envOk.tarCreateExit = 0 ∧
     envOk.uploadOk = true ∧
     blobExists [] (sanitizeBlobName shaFix "linux-v1".toList) = false) ∧
    (countBlobsNamed (saveCache envOk shaFix [] ["build".toList] "linux-v1".toList).container
        (sanitizeBlobName shaFix "linux-v1".toList) = 1 ∧
     saveCache envOk shaFix
        (saveCache envOk shaFix [] ["build".toList] "linux-v1".toList).container
        ["build".toList] "linux-v1".toList =
       SaveOutcome.mk (-1)
         (saveCache envOk shaFix [] ["build".toList] "linux-v1".toList).container
         [] false) := by
  have hne : blobExists [] (sanitizeBlobName shaFix "linux-v1".toList) = false := rfl
  exact ⟨⟨rfl, rfl, rfl, rfl, hne⟩,
    (saveCache_idempotent envOk envOk shaFix [] ["build".toList] ["build".toList]
      "linux-v1".toList).2 rfl rfl rfl rfl rfl hne⟩

/-- Claim C4: provider-boundary failures never propagate — whenever the
`try` body of `restoreCache` raises any error, the call returns
`undefined` with a warning, and whenever the `try` body of `saveCache`
raises any error, the call returns the `-1` sentinel (container
untouched) with a warning; by construction neither `restoreCache` nor
`saveCache` has an exceptional result type, so neither ever throws to
the orchestrating caller. -/
theorem provider_boundary_never_throws (env : Env) (sha256hex : Str → Str)
    (container : Container) (paths : List Str) (primaryKey : Str)
    (restoreKeys : List Str) (lookupOnly : Bool) :
    (∀ e, (restoreCacheTry env sha256hex container primaryKey restoreKeys lookupOnly).2 =
        Except.error e →
      restoreCache env sha256hex container primaryKey restoreKeys lookupOnly =
        RestoreOutcome.mk Option.none
          (restoreCacheTry env sha256hex container primaryKey restoreKeys lookupOnly).1
          true) ∧
    (∀ e, (saveCacheTry env sha256hex container paths primaryKey).2 = Except.error e →
      saveCache env sha256hex container paths primaryKey =
        SaveOutcome.mk (-1) container
          (saveCacheTry env sha256hex container paths primaryKey).1 true) := by
  constructor
  · intro e he
    unfold restoreCache
    cases h : restoreCacheTry env sha256hex container primaryKey restoreKeys lookupOnly with
    | mk evs r =>
        rw [h] at he
        cases r with
        | ok v => exact Except.noConfusion he
        | error e' => rfl
  · intro e he
    unfold saveCache
    cases h : saveCacheTry env sha256hex container paths primaryKey with
    | mk evs r =>
        rw [h] at he
        cases r with
        | ok v => exact Except.noConfusion he
        | error e' => rfl

/-- An environment in which the storage API is unreachable. -/
def envBackendDown : Env :=
  Env.mk true 0 0 false true true true 5 "2026-10-12T00:00:00.000Z".toList "/tmp/t".toList

theorem provider_boundary_never_throws_witness :
    ((restoreCacheTry envBackendDown shaFix [] "k".toList [] false).2 =
       Except.error "backend request failed".toList ∧
     restoreCache envBackendDown shaFix [] "k".toList [] false =
       RestoreOutcome.mk Option.none
         (restoreCacheTry envBackendDown shaFix [] "k".toList [] false).1 true) ∧
    ((saveCacheTry envBackendDown shaFix [] ["p".toList] "k".toList).2 =
       Except.error "backend request failed".toList ∧
     saveCache envBackendDown shaFix [] ["p".toList] "k".toList =
       SaveOutcome.mk (-1) []
         (saveCacheTry envBackendDown shaFix [] ["p".toList] "k".toList).1 true) :=
  ⟨⟨rfl, (provider_boundary_never_throws envBackendDown shaFix [] ["p".toList]
      "k".toList [] false).1 "backend request failed".toList rfl⟩,
   ⟨rfl, (provider_boundary_never_throws envBackendDown shaFix [] ["p".toList]
      "k".toList [] false).2 "backend request failed".toList rfl⟩⟩

/-- Claim C6: whenever resolution finds a match, `restoreCache` with
`lookupOnly = true` performs no external operation at all (in particular
no download and no extraction) and returns the resolved cache key; a
call with `lookupOnly` unset returns that same key whenever its own
download and extraction succeed. -/
theorem restoreCache_lookupOnly_consistent (env : Env) (sha256hex : Str → Str)
    (container : Container) (primaryKey : Str) (restoreKeys : List Str)
    (m : BlobMatch)
    (hm : findMatchingBlob sha256hex container primaryKey restoreKeys = some m)
    (hbe : env.backendOk = true) :
    (restoreCache env sha256hex container primaryKey restoreKeys true).value =
      some m.cacheKey ∧
    (restoreCache env sha256hex container primaryKey restoreKeys true).events = [] ∧
    ∀ env' : Env, env'.backendOk = true → env'.downloadOk = true →
      env'.tarFound = true → env'.tarExtractExit = 0 →
      (restoreCache env' sha256hex container primaryKey restoreKeys false).value =
        some m.cacheKey := by
  refine ⟨?_, ?_, ?_⟩
  · unfold restoreCache restoreCacheTry
    rw [if_pos hbe, hm]
    rfl
  · unfold restoreCache restoreCacheTry
    rw [if_pos hbe, hm]
    rfl
  · intro env' hbe' hdl hf hx
    have hex : extractArchive env'
        (pathJoin env'.tempDir
          ("cache".toList ++ getArchiveExtension providerCompressionMethod))
        providerCompressionMethod = ([Event.tarExtract 0], Except.ok ()) := by
      unfold extractArchive
      rw [if_pos hf, if_pos hx]
    unfold restoreCache restoreCacheTry
    rw [if_pos hbe', hm]
    dsimp only
    rw [if_pos hdl, hex]
    rfl

theorem restoreCache_lookupOnly_consistent_witness :
    (findMatchingBlob shaFix [blobLinuxV1] "linux-v1".toList [] =
       some (BlobMatch.mk "linux-v1".toList "linux-v1".toList) ∧
     envOk.backendOk = true) ∧
    ((restoreCache envOk shaFix [blobLinuxV1] "linux-v1".toList [] true).value =
       some (BlobMatch.mk "linux-v1".toList "linux-v1".toList).cacheKey ∧
     (restoreCache envOk shaFix [blobLinuxV1] "linux-v1".toList [] true).events = [] ∧
     ∀ env' : Env, env'.backendOk = true → env'.downloadOk = true →
       env'.tarFound = true → env'.tarExtractExit = 0 →
       (restoreCache env' shaFix [blobLinuxV1] "linux-v1".toList [] false).value =
         some (BlobMatch.mk "linux-v1".toList "linux-v1".toList).cacheKey) := by
  have hm : findMatchingBlob shaFix [blobLinuxV1] "linux-v1".toList [] =
      some (BlobMatch.mk "linux-v1".toList "linux-v1".toList) := by decide
  exact ⟨⟨hm, rfl⟩, restoreCache_lookupOnly_consistent envOk shaFix [blobLinuxV1]
    "linux-v1".toList [] (BlobMatch.mk "linux-v1".toList "linux-v1".toList) hm rfl⟩

/-- Blob whose `cachekey` metadata field is present but maps to the
empty string. -/
def blobEmptyKey : BlobItem :=
  BlobItem.mk "linux-v1".toList
    (BlobProperties.mk (some 5) (some [(CACHE_KEY_METADATA, [])]))

/-- Claim C7 is false as stated: for this prefix-resolved candidate the
`cachekey` metadata field is present (its value is the empty string),
yet the reported `cacheKey` is the object name, not the metadata value —
the JavaScript `||` fallback also fires on a present-but-empty field,
not only when the metadata is absent. -/
theorem metadata_roundtrip_counterexample :
    (blobEmptyKey.properties.metadata.bind fun mm => lookupMeta mm CACHE_KEY_METADATA) =
      some [] ∧
    findMatchingBlob shaFix [blobEmptyKey] "nomatch".toList ["linux-".toList] =
      some (BlobMatch.mk blobEmptyKey.name blobEmptyKey.name) ∧
    blobEmptyKey.name ≠ [] := by
  refine ⟨by decide, by decide, by decide⟩

/-- Claim C7 (amended): every successful save uploads the blob with
exactly two metadata fields — `cachekey` set verbatim to the caller's
primary key and `createdat` set to the call-time `toISOString`
timestamp — and a prefix-resolved candidate's reported `cacheKey` is
recovered from the `cachekey` metadata field, falling back to the
(sanitized) object name when that metadata is absent *or when its value
is the empty string* (JavaScript `||`). -/
theorem metadata_roundtrip (env : Env) (sha256hex : Str → Str)
    (container : Container) (paths : List Str) (primaryKey : Str) :
    (env.backendOk = true → env.tarFound = true → env.tarCreateExit = 0 →
      env.uploadOk = true →
      blobExists container (sanitizeBlobName sha256hex primaryKey) = false →
      Event.upload (sanitizeBlobName sha256hex primaryKey)
          [(CACHE_KEY_METADATA, primaryKey), (CREATED_AT_METADATA, env.nowIso)] ∈
        (saveCache env sha256hex container paths primaryKey).events) ∧
    (∀ (primaryKey' rk : Str) (post : List Str) (b : BlobItem),
      blobExists container (sanitizeBlobName sha256hex primaryKey') = false →
      listBlobsFlat container (sanitizeBlobName sha256hex rk) = [b] →
      findMatchingBlob sha256hex container primaryKey' (rk :: post) =
        some (BlobMatch.mk
          (match b.properties.metadata.bind fun mm => lookupMeta mm CACHE_KEY_METADATA with
           | some v => if v = [] then b.name else v
           | Option.none => b.name)
          b.name)) := by
  constructor
  · intro hbe hf hz hup hne
    obtain ⟨evs, ho, hmem⟩ := saveCache_fresh env sha256hex container paths primaryKey
      hne hbe hf hz hup
    rw [ho]
    exact hmem
  · intro primaryKey' rk post b hno hone
    unfold findMatchingBlob
    rw [if_neg (by rw [hno]; exact Bool.false_ne_true)]
    rw [findFirstPrefixMatch_cons_found sha256hex container rk post b [] hone]
    simp only [List.map_nil, List.foldl_nil]
    unfold getOriginalKey jsOrStr
    rfl

theorem metadata_roundtrip_witness :
    (envOk.backendOk = true ∧ envOk.tarFound = true ∧ envOk.tarCreateExit = 0 ∧
     envOk.uploadOk = true ∧
     blobExists [blobLinuxV1] (sanitizeBlobName shaFix "linux-v2".toList) = false ∧
     listBlobsFlat [blobLinuxV1] (sanitizeBlobName shaFix "linux-".toList) =
       [blobLinuxV1]) ∧
    (Event.upload (sanitizeBlobName shaFix "linux-v2".toList)
        [(CACHE_KEY_METADATA, "linux-v2".toList),
         (CREATED_AT_METADATA, envOk.nowIso)] ∈
      (saveCache envOk shaFix [blobLinuxV1] ["build".toList] "linux-v2".toList).events) ∧
    findMatchingBlob shaFix [blobLinuxV1] "linux-v2".toList
        ("linux-".toList :: []) =
      some (BlobMatch.mk
        (match blobLinuxV1.properties.metadata.bind
            fun mm => lookupMeta mm CACHE_KEY_METADATA with
         | some v => if v = [] then blobLinuxV1.name else v
         | Option.none => blobLinuxV1.name)
        blobLinuxV1.name) := by
  have hne : blobExists [blobLinuxV1] (sanitizeBlobName shaFix "linux-v2".toList) = false := by
    decide
  have hone : listBlobsFlat [blobLinuxV1] (sanitizeBlobName shaFix "linux-".toList) =
      [blobLinuxV1] := by decide
  refine ⟨⟨rfl, rfl, rfl, rfl, hne, hone⟩, ?_, ?_⟩
  · exact (metadata_roundtrip envOk shaFix [blobLinuxV1] ["build".toList]
      "linux-v2".toList).1 rfl rfl rfl rfl hne
  · exact (metadata_roundtrip envOk shaFix [blobLinuxV1] ["build".toList]
      "linux-v2".toList).2 "linux-v2".toList "linux-".toList [] blobLinuxV1 hne hone

end AzureCache
